import Mathlib

/-!
# HealthMetric — verification of the ingestion / reorganization / indexing pipeline

Shallow embedding of the HealthMetric repository (Ennead-Architects-LLP/HealthMetric):
the dashboard data layer that is present in `docs/js` (DataPlugin.js, parser.js,
aggregator) is translated directly from the JavaScript source; the merge / transport
side (merge script, sender, receiver, workflow push loop) is not part of the
repository's checked-in sources, so those components are modelled from the
specification documents (`docs/Data_Merge_Process_Specification.md`, the workflow
architecture notes and the sender/receiver workflow notes), as marked on each
definition.

Dates are day numbers (days since 1970-01-01); conversion between civil dates and
day numbers uses the standard proleptic-Gregorian algorithms, so concrete scenario
dates such as 2025-10-06 can be written as `daysFromCivil 2025 10 6`.
-/

namespace HealthMetric

/-! ## Civil dates as day numbers -/

/-- Day number (days since 1970-01-01) of a proleptic-Gregorian civil date.
Standard `days_from_civil` algorithm. -/
def daysFromCivil (y m d : Int) : Int :=
  let yAdj := if m ≤ 2 then y - 1 else y
  let era := (if 0 ≤ yAdj then yAdj else yAdj - 399) / 400
  let yoe := yAdj - era * 400
  let mp := (m + 9) % 12
  let doy := (153 * mp + 2) / 5 + d - 1
  let doe := yoe * 365 + yoe / 4 - yoe / 100 + doy
  era * 146097 + doe - 719468

/-- Day-of-month of a day number (standard `civil_from_days` algorithm, the
day-of-month component).  Models JavaScript `Date.prototype.getDate`. -/
def civilDayOfMonth (z : Int) : Int :=
  let z' := z + 719468
  let era := (if 0 ≤ z' then z' else z' - 146096) / 146097
  let doe := z' - era * 146097
  let yoe := (doe - doe / 1460 + doe / 36524 - doe / 146096) / 365
  let doy := doe - (365 * yoe + yoe / 4 - yoe / 100)
  let mp := (5 * doy + 2) / 153
  doy - (153 * mp + 2) / 5 + 1

/-- JavaScript `Date.prototype.getDay`: 0 = Sunday .. 6 = Saturday.
Day 0 (1970-01-01) was a Thursday, so `jsDay 0 = 4`. -/
def jsDay (n : Int) : Int := (n + 4) % 7

/-- Monday-anchored weekday index: 0 = Monday .. 6 = Sunday (the convention the
spec names for its week-start formula). -/
def weekdayMonAnchored (n : Int) : Int := (n + 3) % 7

/-! ## DataAggregator.getWeekStart (docs/js aggregator source)

```js
getWeekStart(date) {
    const d = new Date(date);
    const day = d.getDay();
    const diff = d.getDate() - day + (day === 0 ? -6 : 1); // Adjust when day is Sunday
    return new Date(d.setDate(diff));
}
```

`d.setDate(diff)` sets the day-of-month to `diff` with JavaScript's date
normalization, which shifts the day number by `diff - d.getDate()`. -/
def getWeekStart (n : Int) : Int :=
  let day := jsDay n
  let dom := civilDayOfMonth n
  let diff := dom - day + (if day = 0 then -6 else 1)
  n + (diff - dom)

/-- The week-start formula exactly as the claim words it: subtract
`(weekday + 6) mod 7` days where weekday is Monday-anchored (0 = Monday). -/
def weekStartClaimFormula (n : Int) : Int :=
  n - ((weekdayMonAnchored n + 6) % 7)

theorem getWeekStart_closed_form (n : Int) :
    getWeekStart n = n - ((jsDay n + 6) % 7) := by
  unfold getWeekStart jsDay
  by_cases h : (n + 4) % 7 = 0 <;> simp only [h, if_true, if_false] <;> omega

theorem jsDay_getWeekStart (n : Int) : jsDay (getWeekStart n) = 1 := by
  rw [getWeekStart_closed_form]
  unfold jsDay
  omega

/-- C1 (amended): for every date `d`, `getWeekStart d` is a Monday and
`getWeekStart d ≤ d < getWeekStart d + 7`; the scenario dates map as stated
(Saturday 2025-10-11 and Monday 2025-10-06 both to 2025-10-06, Monday
2025-10-13 to the distinct bucket 2025-10-13, and Sunday 2025-10-12 to the
previous Monday 2025-10-06); the correct closed form is
`weekStart d = d - weekday d` with weekday Monday-anchored (0 = Monday ..
6 = Sunday) — not `d - ((weekday d + 6) mod 7)` as the claim writes it. -/
theorem getWeekStart_monday_bucket (n : Int) :
    jsDay (getWeekStart n) = 1 ∧
    getWeekStart n ≤ n ∧ n < getWeekStart n + 7 ∧
    getWeekStart n = n - weekdayMonAnchored n ∧
    getWeekStart (daysFromCivil 2025 10 11) = daysFromCivil 2025 10 6 ∧
    getWeekStart (daysFromCivil 2025 10 6) = daysFromCivil 2025 10 6 ∧
    getWeekStart (daysFromCivil 2025 10 13) = daysFromCivil 2025 10 13 ∧
    daysFromCivil 2025 10 13 ≠ daysFromCivil 2025 10 6 ∧
    getWeekStart (daysFromCivil 2025 10 12) = daysFromCivil 2025 10 6 := by
  refine ⟨jsDay_getWeekStart n, ?_, ?_, ?_, by decide, by decide, by decide,
    by decide, by decide⟩ <;>
    rw [getWeekStart_closed_form] <;> simp only [jsDay, weekdayMonAnchored] <;> omega

/-- C1 counterexample: at the Saturday 2025-10-11, the formula the claim
states — subtract `(weekday + 6) mod 7` days with weekday 0 = Monday ..
6 = Sunday — disagrees with the code's `getWeekStart` (it lands on the
Tuesday 2025-10-07, not the Monday 2025-10-06 the claim's own scenario
requires). -/
theorem weekStartClaimFormula_counterexample :
    getWeekStart (daysFromCivil 2025 10 11) ≠
      weekStartClaimFormula (daysFromCivil 2025 10 11) ∧
    weekStartClaimFormula (daysFromCivil 2025 10 11) ≠ daysFromCivil 2025 10 6 := by
  decide

/-! ## Dashboard data plugin layer (docs/js/data/DataPlugin.js)

The raw input is a JSON object; optional fields are `Option`, with `none`
standing for an absent (or `null`) field.  JavaScript truthiness of the
fields these functions read: a string is falsy when absent or empty, a
number when absent or zero, a boolean when absent or `false`; the helpers
below translate the `x || fallback` idiom accordingly. -/

/-- JS `v || fallback` for an optional string field. -/
def jsOrString (v : Option String) (fallback : String) : String :=
  match v with
  | some s => if s = "" then fallback else s
  | none => fallback

/-- JS `v || fallback` for an optional number field (integral). -/
def jsOrInt (v : Option Int) (fallback : Int) : Int :=
  match v with
  | some x => if x = 0 then fallback else x
  | none => fallback

/-- JS `v || fallback` for an optional number field (fractional). -/
def jsOrRat (v : Option Rat) (fallback : Rat) : Rat :=
  match v with
  | some x => if x = 0 then fallback else x
  | none => fallback

/-- JS `v || fallback` for an optional boolean field. -/
def jsOrBool (v : Option Bool) (fallback : Bool) : Bool :=
  match v with
  | some b => if b then true else fallback
  | none => fallback

/-- JS truthiness of an optional string field. -/
def truthyString (v : Option String) : Bool := v.getD "" ≠ ""

/-- JS truthiness of an optional number field. -/
def truthyInt (v : Option Int) : Bool := v.getD 0 ≠ 0

/-- The `job_metadata` object of a SexyDuck report. -/
structure JobMetadata where
  hub_name : Option String
  project_name : Option String
  model_name : Option String
  timestamp : Option Int
  execution_time_seconds : Option Rat
  revit_version : Option String
  job_id : Option String
/-- JS `{}`: an object with every field absent. -/
def emptyJobMetadata : JobMetadata := ⟨none, none, none, none, none, none, none⟩

/-- The `result_data.debug_info` object of a SexyDuck report. -/
structure DebugInfo where
  error_occurred : Option Bool
/-- The `result_data` object of a SexyDuck report (the scalar fields the
dashboard and the validator read). -/
structure ResultData where
  total_elements : Option Int
  total_views : Option Int
  total_sheets : Option Int
  total_families : Option Int
  total_rooms : Option Int
  warning_count : Option Int
  critical_warning_count : Option Int
  views_not_on_sheets : Option Int
  copied_views : Option Int
  unused_view_templates : Option Int
  dimensions : Option Int
  dimension_overrides : Option Int
  text_notes_instances : Option Int
  detail_lines : Option Int
  materials : Option Int
  is_workshared : Option Bool
  linked_files_count : Option Int
  is_EnneadTab_Available : Option Bool
  mock_mode : Option Bool
  debug_info : Option DebugInfo
/-- JS `{}` for `result_data`. -/
def emptyResultData : ResultData :=
  ⟨none, none, none, none, none, none, none, none, none, none,
   none, none, none, none, none, none, none, none, none, none⟩

/-- A raw JSON object handed to the plugin manager: it may carry the
SexyDuck-format fields (`job_metadata`, `result_data`, `status`) and/or the
standard-format top-level fields.  Array inputs are handled by a third
plugin and are not objects, so they are outside this model. -/
structure RawData where
  job_metadata : Option JobMetadata
  result_data : Option ResultData
  status : Option String
  hubName : Option String
  projectName : Option String
  modelName : Option String
  timestamp : Option Int
  executionTime : Option Rat
  totalElements : Option Int
  totalViews : Option Int
  warningCount : Option Int
/-- The record a plugin's `parse` returns (a JS object literal that always
sets every one of these keys).  `projectPhases` and `viewTypes` are
non-scalar fields not read by any claim and are omitted. -/
structure ParsedRecord where
  hubName : String
  projectName : String
  modelName : String
  timestamp : Int
  executionTime : Rat
  revitVersion : String
  jobId : String
  totalElements : Int
  totalViews : Int
  totalSheets : Int
  totalFamilies : Int
  totalRooms : Int
  warningCount : Int
  criticalWarningCount : Int
  viewsNotOnSheets : Int
  copiedViews : Int
  unusedViewTemplates : Int
  dimensions : Int
  dimensionOverrides : Int
  textNotesInstances : Int
  detailLines : Int
  materials : Int
  isWorkshared : Bool
  linkedFilesCount : Int
  isEnneadTabAvailable : Bool
  status : String
  filename : String
  parsedAt : Int
  format : String
/-- SexyDuckPlugin.canHandle: `data && data.job_metadata && data.result_data
&& data.status` (the objects are truthy when present, the status string when
non-empty). -/
def sexyDuckCanHandle (data : RawData) : Bool :=
  data.job_metadata.isSome && data.result_data.isSome && truthyString data.status

/-- SexyDuckPlugin.parse.  `now` is the clock value `Date.now()` the JS reads
for `parsedAt` and for a missing timestamp. -/
def sexyDuckParse (data : RawData) (filename : String) (now : Int) : ParsedRecord :=
  let metadata := data.job_metadata.getD emptyJobMetadata
  let resultData := data.result_data.getD emptyResultData
  { hubName := jsOrString metadata.hub_name "Unknown"
    projectName := jsOrString metadata.project_name "Unknown"
    modelName := jsOrString metadata.model_name "Unknown"
    timestamp := jsOrInt metadata.timestamp now
    executionTime := jsOrRat metadata.execution_time_seconds 0
    revitVersion := jsOrString metadata.revit_version "Unknown"
    jobId := jsOrString metadata.job_id "Unknown"
    totalElements := jsOrInt resultData.total_elements 0
    totalViews := jsOrInt resultData.total_views 0
    totalSheets := jsOrInt resultData.total_sheets 0
    totalFamilies := jsOrInt resultData.total_families 0
    totalRooms := jsOrInt resultData.total_rooms 0
    warningCount := jsOrInt resultData.warning_count 0
    criticalWarningCount := jsOrInt resultData.critical_warning_count 0
    viewsNotOnSheets := jsOrInt resultData.views_not_on_sheets 0
    copiedViews := jsOrInt resultData.copied_views 0
    unusedViewTemplates := jsOrInt resultData.unused_view_templates 0
    dimensions := jsOrInt resultData.dimensions 0
    dimensionOverrides := jsOrInt resultData.dimension_overrides 0
    textNotesInstances := jsOrInt resultData.text_notes_instances 0
    detailLines := jsOrInt resultData.detail_lines 0
    materials := jsOrInt resultData.materials 0
    isWorkshared := jsOrBool resultData.is_workshared false
    linkedFilesCount := jsOrInt resultData.linked_files_count 0
    isEnneadTabAvailable := jsOrBool resultData.is_EnneadTab_Available false
    status := jsOrString data.status "unknown"
    filename := filename
    parsedAt := now
    format := "SexyDuck" }

/-- StandardJSONPlugin.canHandle: `(data.hubName || data.projectName ||
data.modelName) && (data.totalElements || data.totalViews ||
data.warningCount)`. -/
def standardJSONCanHandle (data : RawData) : Bool :=
  (truthyString data.hubName || truthyString data.projectName ||
    truthyString data.modelName) &&
  (truthyInt data.totalElements || truthyInt data.totalViews ||
    truthyInt data.warningCount)

/-- StandardJSONPlugin.parse over the modelled raw fields (fields the raw
object model does not carry default to the same fallbacks the JS uses). -/
def standardJSONParse (data : RawData) (filename : String) (now : Int) : ParsedRecord :=
  { hubName := jsOrString data.hubName "Unknown"
    projectName := jsOrString data.projectName "Unknown"
    modelName := jsOrString data.modelName "Unknown"
    timestamp := jsOrInt data.timestamp now
    executionTime := jsOrRat data.executionTime 0
    revitVersion := "Unknown"
    jobId := "Unknown"
    totalElements := jsOrInt data.totalElements 0
    totalViews := jsOrInt data.totalViews 0
    totalSheets := 0
    totalFamilies := 0
    totalRooms := 0
    warningCount := jsOrInt data.warningCount 0
    criticalWarningCount := 0
    viewsNotOnSheets := 0
    copiedViews := 0
    unusedViewTemplates := 0
    dimensions := 0
    dimensionOverrides := 0
    textNotesInstances := 0
    detailLines := 0
    materials := 0
    isWorkshared := false
    linkedFilesCount := 0
    isEnneadTabAvailable := false
    status := jsOrString data.status "unknown"
    filename := filename
    parsedAt := now
    format := "StandardJSON" }

/-- The keys every `ParsedRecord` object literal sets. -/
def parsedRecordKeys : List String :=
  ["hubName", "projectName", "modelName", "timestamp", "executionTime",
   "revitVersion", "jobId", "totalElements", "totalViews", "totalSheets",
   "totalFamilies", "totalRooms", "warningCount", "criticalWarningCount",
   "viewsNotOnSheets", "copiedViews", "unusedViewTemplates", "dimensions",
   "dimensionOverrides", "textNotesInstances", "detailLines", "materials",
   "isWorkshared", "linkedFilesCount", "isEnneadTabAvailable", "status",
   "filename", "parsedAt", "format"]

/-- `parsedData.hasOwnProperty(field)`: a parsed record carries exactly the
keys of `parsedRecordKeys`, whatever its field values are. -/
def parsedRecordHasKey (_r : ParsedRecord) (field : String) : Bool :=
  parsedRecordKeys.contains field

/-- `requiredFields` of the SexyDuck and StandardJSON plugin configs. -/
def pluginRequiredFields : List String :=
  ["hubName", "projectName", "modelName", "timestamp"]

/-- DataPlugin.validate: every required field is a key of the parsed data. -/
def pluginValidate (requiredFields : List String) (r : ParsedRecord) : Bool :=
  requiredFields.all fun f => parsedRecordHasKey r f

/-- The plugin the manager selects (registration order: SexyDuck first,
then StandardJSON; the array plugin never matches an object). -/
inductive PluginChoice
  | sexyDuck
  | standardJSON
/-- PluginManager.findPluginForData: first enabled plugin whose `canHandle`
accepts the data. -/
def findPluginForData (data : RawData) : Option PluginChoice :=
  if sexyDuckCanHandle data then some .sexyDuck
  else if standardJSONCanHandle data then some .standardJSON
  else none

/-- PluginManager.parseData: dispatch to the matching plugin, validate the
parse result, return it or `null`; the surrounding try/catch means no
exception escapes this interface, which the `Option` return type reflects. -/
def parseData (data : RawData) (filename : String) (now : Int) : Option ParsedRecord :=
  match findPluginForData data with
  | some .sexyDuck =>
      let parsed := sexyDuckParse data filename now
      if pluginValidate pluginRequiredFields parsed then some parsed else none
  | some .standardJSON =>
      let parsed := standardJSONParse data filename now
      if pluginValidate pluginRequiredFields parsed then some parsed else none
  | none => none

theorem pluginValidate_always_true (r : ParsedRecord) :
    pluginValidate pluginRequiredFields r = true := by
  rfl

/-- C9: the dashboard decoding path is total and silently defaulting — for
every object the SexyDuck plugin's `canHandle` accepts, `parseData` returns
the parsed record (never `null`, never an exception), whatever its `status`
or nested mock/error flags; the record substitutes the fixed defaults
("Unknown" names, 0 metrics, the current time for a missing timestamp) for
absent or falsy fields. -/
theorem parseData_sexyDuck_total_defaulting (data : RawData) (filename : String)
    (now : Int) (h : sexyDuckCanHandle data = true) :
    parseData data filename now = some (sexyDuckParse data filename now) ∧
    (sexyDuckParse data filename now).hubName =
      jsOrString (data.job_metadata.getD emptyJobMetadata).hub_name "Unknown" ∧
    (sexyDuckParse data filename now).projectName =
      jsOrString (data.job_metadata.getD emptyJobMetadata).project_name "Unknown" ∧
    (sexyDuckParse data filename now).modelName =
      jsOrString (data.job_metadata.getD emptyJobMetadata).model_name "Unknown" ∧
    (sexyDuckParse data filename now).timestamp =
      jsOrInt (data.job_metadata.getD emptyJobMetadata).timestamp now ∧
    (sexyDuckParse data filename now).executionTime =
      jsOrRat (data.job_metadata.getD emptyJobMetadata).execution_time_seconds 0 ∧
    (sexyDuckParse data filename now).status = jsOrString data.status "unknown" := by
  refine ⟨?_, rfl, rfl, rfl, rfl, rfl, rfl⟩
  unfold parseData findPluginForData
  rw [h]
  simp [pluginValidate_always_true]

/-- A SexyDuck-shaped object whose status is "failed", whose mock and error
flags are set, and whose hub name is absent. -/
def sampleFailedRaw : RawData :=
  { job_metadata := some { emptyJobMetadata with model_name := some "ModelA" }
    result_data := some { emptyResultData with
      mock_mode := some true
      debug_info := some ⟨some true⟩ }
    status := some "failed"
    hubName := none, projectName := none, modelName := none
    timestamp := none, executionTime := none
    totalElements := none, totalViews := none, warningCount := none }

/-- C9 witness: the failed, mock-flagged sample object is still parsed to a
record (status "failed", hub name defaulted to "Unknown", timestamp
defaulted to the clock value) — no rejection at this interface. -/
theorem parseData_sexyDuck_total_defaulting_witness :
    sexyDuckCanHandle sampleFailedRaw = true ∧
    parseData sampleFailedRaw "f.SexyDuck" 111 =
      some (sexyDuckParse sampleFailedRaw "f.SexyDuck" 111) ∧
    (sexyDuckParse sampleFailedRaw "f.SexyDuck" 111).hubName = "Unknown" ∧
    (sexyDuckParse sampleFailedRaw "f.SexyDuck" 111).timestamp = 111 ∧
    (sexyDuckParse sampleFailedRaw "f.SexyDuck" 111).status = "failed" := by
  have h : sexyDuckCanHandle sampleFailedRaw = true := by decide
  refine ⟨h, (parseData_sexyDuck_total_defaulting sampleFailedRaw "f.SexyDuck" 111 h).1,
    by decide, by decide, by decide⟩

/-! ## Aggregator (docs/js/data/parser.js aggregateData; the DataAggregator's
aggregateByHub / aggregateByProject / aggregateByModel)

The three JS functions are textually identical up to the key built for the
bucket object (`hubName`, `hubName::projectName`,
`hubName::projectName::modelName`), so the embedding is one keyed fold.
A JS object is an association list in insertion order: a missing key is
appended, an existing key is updated in place. -/

/-- One aggregation bucket (the counter / total / running-average fields;
`projects`, `models` and `timeSeries` are accumulators no claim reads). -/
structure AggBucket where
  totalFiles : Nat
  totalElements : Int
  totalViews : Int
  totalWarnings : Int
  avgExecutionTime : Rat
  firstSeen : Int
  lastSeen : Int
/-- The freshly created bucket (`totalFiles: 0, ... avgExecutionTime: 0,
firstSeen: timestamp, lastSeen: timestamp`). -/
def newBucket (timestamp : Int) : AggBucket := ⟨0, 0, 0, 0, 0, timestamp, timestamp⟩

/-- The per-record bucket update: increment `totalFiles`, add the metric
totals, and apply the incremental mean
`avg = (avg * (totalFiles - 1) + executionTime) / totalFiles`. -/
def bucketAdd (b : AggBucket) (r : ParsedRecord) : AggBucket :=
  let n := b.totalFiles + 1
  { totalFiles := n
    totalElements := b.totalElements + r.totalElements
    totalViews := b.totalViews + r.totalViews
    totalWarnings := b.totalWarnings + r.warningCount
    avgExecutionTime := (b.avgExecutionTime * ((n : Rat) - 1) + r.executionTime) / (n : Rat)
    firstSeen := min b.firstSeen r.timestamp
    lastSeen := max b.lastSeen r.timestamp }

/-- JS object property read over an insertion-ordered association list. -/
def objGet (st : List (String × AggBucket)) (k : String) : Option AggBucket :=
  match st with
  | [] => none
  | e :: rest => if e.1 = k then some e.2 else objGet rest k

/-- JS `key in obj`. -/
def objHas (st : List (String × AggBucket)) (k : String) : Bool :=
  st.any fun e => e.1 = k

/-- One iteration of the aggregation loop for one bucket family: create the
bucket if absent, then apply `bucketAdd` to it in place. -/
def aggInsert (keyOf : ParsedRecord → String) (st : List (String × AggBucket))
    (r : ParsedRecord) : List (String × AggBucket) :=
  if objHas st (keyOf r) then
    st.map fun e => if e.1 = keyOf r then (e.1, bucketAdd e.2 r) else e
  else
    st ++ [(keyOf r, bucketAdd (newBucket r.timestamp) r)]

/-- The aggregation pass over a list of parsed records. -/
def aggregateBy (keyOf : ParsedRecord → String) (rs : List ParsedRecord) :
    List (String × AggBucket) :=
  rs.foldl (aggInsert keyOf) []

/-- Bucket key of the `byHub` object. -/
def hubKey (r : ParsedRecord) : String := r.hubName

/-- Bucket key of the `byProject` object. -/
def projectKey (r : ParsedRecord) : String := r.hubName ++ "::" ++ r.projectName

/-- Bucket key of the `byModel` object. -/
def modelKey (r : ParsedRecord) : String :=
  r.hubName ++ "::" ++ r.projectName ++ "::" ++ r.modelName

/-- Number of records of `rs` aggregated into the bucket `k`. -/
def matchCount (keyOf : ParsedRecord → String) (k : String)
    (rs : List ParsedRecord) : Nat :=
  (rs.filter fun r => keyOf r = k).length

/-- Sum of the execution times of the records of `rs` aggregated into `k`. -/
def execSum (keyOf : ParsedRecord → String) (k : String)
    (rs : List ParsedRecord) : Rat :=
  ((rs.filter fun r => keyOf r = k).map ParsedRecord.executionTime).sum

theorem objHas_eq_isSome (st : List (String × AggBucket)) (k : String) :
    objHas st k = (objGet st k).isSome := by
  induction st with
  | nil => rfl
  | cons e rest ih =>
    by_cases h : e.1 = k
    · simp [objHas, objGet, h]
    · simp only [objHas, objGet, List.any_cons] at ih ⊢
      simp [h, ih]

theorem objGet_map_bucketAdd (st : List (String × AggBucket)) (key : String)
    (r : ParsedRecord) (k : String) :
    objGet (st.map fun e => if e.1 = key then (e.1, bucketAdd e.2 r) else e) k =
      if k = key then (objGet st k).map (bucketAdd · r) else objGet st k := by
  induction st with
  | nil => by_cases h : k = key <;> simp [objGet, h]
  | cons e rest ih =>
    obtain ⟨a, b⟩ := e
    by_cases h1 : a = key <;> by_cases h2 : a = k
    · have h3 : k = key := h2.symm.trans h1
      simp [objGet, h1, h2, h3]
    · have h3 : ¬ k = key := fun h => h2 (h1.trans h.symm)
      simp only [objGet, List.map_cons, if_pos h1, if_neg h2, if_neg h3, ih]
    · have h3 : ¬ k = key := fun h => h1 (h2.trans h)
      simp only [objGet, List.map_cons, if_neg h1, if_pos h2, if_neg h3]
    · simp only [objGet, List.map_cons, if_neg h1, if_neg h2, ih]

theorem objGet_append_single (st : List (String × AggBucket)) (key : String)
    (v : AggBucket) (k : String) :
    objGet (st ++ [(key, v)]) k =
      if (objGet st k).isSome then objGet st k
      else if k = key then some v else none := by
  induction st with
  | nil => by_cases h : key = k <;> simp [objGet, h, eq_comm]
  | cons e rest ih =>
    by_cases h : e.1 = k <;> simp [objGet, h, ih]

theorem objGet_aggInsert (keyOf : ParsedRecord → String)
    (st : List (String × AggBucket)) (r : ParsedRecord) (k : String) :
    objGet (aggInsert keyOf st r) k =
      if k = keyOf r then
        some (bucketAdd ((objGet st k).getD (newBucket r.timestamp)) r)
      else objGet st k := by
  unfold aggInsert
  by_cases hmem : objHas st (keyOf r)
  · rw [if_pos hmem, objGet_map_bucketAdd]
    by_cases hk : k = keyOf r
    · rw [objHas_eq_isSome] at hmem
      subst hk
      obtain ⟨b, hb⟩ := Option.isSome_iff_exists.mp hmem
      simp [hb]
    · simp [hk]
  · rw [if_neg hmem, objGet_append_single]
    rw [objHas_eq_isSome] at hmem
    by_cases hk : k = keyOf r
    · have hnone : objGet st (keyOf r) = none := by
        cases h : objGet st (keyOf r) with
        | none => rfl
        | some b => rw [h] at hmem; simp at hmem
      simp [hk, hnone]
    · by_cases hs : (objGet st k).isSome
      · simp [hs, hk]
      · simp [hs, hk, Option.not_isSome_iff_eq_none.mp hs]

theorem aggregateBy_append (keyOf : ParsedRecord → String) (rs : List ParsedRecord)
    (r : ParsedRecord) :
    aggregateBy keyOf (rs ++ [r]) = aggInsert keyOf (aggregateBy keyOf rs) r := by
  simp [aggregateBy, List.foldl_append]

theorem matchCount_append (keyOf : ParsedRecord → String) (k : String)
    (rs : List ParsedRecord) (r : ParsedRecord) :
    matchCount keyOf k (rs ++ [r]) =
      matchCount keyOf k rs + (if keyOf r = k then 1 else 0) := by
  by_cases h : keyOf r = k <;> simp [matchCount, List.filter_append, h]

theorem execSum_append (keyOf : ParsedRecord → String) (k : String)
    (rs : List ParsedRecord) (r : ParsedRecord) :
    execSum keyOf k (rs ++ [r]) =
      execSum keyOf k rs + (if keyOf r = k then r.executionTime else 0) := by
  by_cases h : keyOf r = k <;> simp [execSum, List.filter_append, h]

theorem execSum_eq_zero (keyOf : ParsedRecord → String) (k : String)
    (rs : List ParsedRecord) (h : matchCount keyOf k rs = 0) :
    execSum keyOf k rs = 0 := by
  unfold matchCount at h
  rw [List.length_eq_zero] at h
  unfold execSum
  rw [h]
  rfl

theorem avg_step (S x : Rat) (n : Nat) (hS : n = 0 → S = 0) :
    (S / (n : Rat) * (((n : Rat) + 1) - 1) + x) / ((n : Rat) + 1) =
      (S + x) / ((n : Rat) + 1) := by
  rcases Nat.eq_zero_or_pos n with h | h
  · subst h
    rw [hS rfl]
    norm_num
  · have hn : (n : Rat) ≠ 0 := Nat.cast_ne_zero.mpr h.ne'
    have h1 : ((n : Rat) + 1) - 1 = (n : Rat) := by ring
    rw [h1, div_mul_cancel₀ _ hn]

theorem aggregateBy_bucket_inv (keyOf : ParsedRecord → String)
    (rs : List ParsedRecord) (k : String) :
    (objGet (aggregateBy keyOf rs) k = none → matchCount keyOf k rs = 0) ∧
    (∀ b, objGet (aggregateBy keyOf rs) k = some b →
      b.totalFiles = matchCount keyOf k rs ∧
      b.avgExecutionTime = execSum keyOf k rs / (matchCount keyOf k rs : Rat)) := by
  induction rs using List.reverseRecOn with
  | nil =>
    refine ⟨fun _ => rfl, fun b hb => ?_⟩
    simp [aggregateBy, objGet] at hb
  | append_singleton rs r ih =>
    rw [aggregateBy_append, matchCount_append, execSum_append]
    constructor
    · intro hnone
      rw [objGet_aggInsert] at hnone
      by_cases hk : k = keyOf r
      · rw [if_pos hk] at hnone
        exact absurd hnone (by simp)
      · rw [if_neg hk] at hnone
        have hne : ¬ keyOf r = k := fun h => hk h.symm
        simp [ih.1 hnone, hne]
    · intro b hb
      rw [objGet_aggInsert] at hb
      by_cases hk : k = keyOf r
      · rw [if_pos hk] at hb
        have hb' : b = bucketAdd
            ((objGet (aggregateBy keyOf rs) k).getD (newBucket r.timestamp)) r :=
          ((Option.some.injEq _ _).mp hb).symm
        have hkr : keyOf r = k := hk.symm
        simp only [if_pos hkr]
        subst hb'
        cases hprev : objGet (aggregateBy keyOf rs) k with
        | none =>
          have hcount : matchCount keyOf k rs = 0 := ih.1 hprev
          have hsum : execSum keyOf k rs = 0 := execSum_eq_zero keyOf k rs hcount
          rw [hcount, hsum]
          unfold bucketAdd newBucket
          norm_num
        | some bPrev =>
          obtain ⟨hn, havg⟩ := ih.2 bPrev hprev
          unfold bucketAdd
          simp only [Option.getD_some]
          refine ⟨by rw [hn], ?_⟩
          simp only [havg, hn]
          push_cast
          rw [avg_step (execSum keyOf k rs) r.executionTime (matchCount keyOf k rs)
            (fun h0 => execSum_eq_zero keyOf k rs h0)]
      · rw [if_neg hk] at hb
        have hne : ¬ keyOf r = k := fun h => hk h.symm
        simp only [if_neg hne, add_zero]
        exact ih.2 b hb

theorem aggregateBy_elim_inv (keyOf : ParsedRecord → String)
    (rs : List ParsedRecord) (k : String) :
    (objGet (aggregateBy keyOf rs) k).elim (matchCount keyOf k rs = 0)
      (fun b => b.totalFiles = matchCount keyOf k rs ∧
        b.avgExecutionTime = execSum keyOf k rs / (matchCount keyOf k rs : Rat)) := by
  cases h : objGet (aggregateBy keyOf rs) k with
  | none => simpa using (aggregateBy_bucket_inv keyOf rs k).1 h
  | some b => simpa using (aggregateBy_bucket_inv keyOf rs k).2 b h

/-- C10: after aggregating any list of parsed records, every bucket of the
per-hub, per-project and per-model objects satisfies `totalFiles` = number
of records aggregated into that bucket and `avgExecutionTime` = the exact
arithmetic mean of those records' execution times (and a bucket is absent
exactly when no record maps to it) — the incremental update
`avg = (avg * (totalFiles - 1) + executionTime) / totalFiles` preserves
this at every step. -/
theorem aggregate_running_mean (rs : List ParsedRecord) (k : String) :
    ((objGet (aggregateBy hubKey rs) k).elim (matchCount hubKey k rs = 0)
      fun b => b.totalFiles = matchCount hubKey k rs ∧
        b.avgExecutionTime = execSum hubKey k rs / (matchCount hubKey k rs : Rat)) ∧
    ((objGet (aggregateBy projectKey rs) k).elim (matchCount projectKey k rs = 0)
      fun b => b.totalFiles = matchCount projectKey k rs ∧
        b.avgExecutionTime = execSum projectKey k rs / (matchCount projectKey k rs : Rat)) ∧
    ((objGet (aggregateBy modelKey rs) k).elim (matchCount modelKey k rs = 0)
      fun b => b.totalFiles = matchCount modelKey k rs ∧
        b.avgExecutionTime = execSum modelKey k rs / (matchCount modelKey k rs : Rat)) :=
  ⟨aggregateBy_elim_inv hubKey rs k, aggregateBy_elim_inv projectKey rs k,
    aggregateBy_elim_inv modelKey rs k⟩

/-! ## Validator (merge side)

The merge script (`merge_data_received.py`) is not among the repository's
checked-in sources; its validation rules are given by
docs/Data_Merge_Process_Specification.md, "File Validation Rules", and
spec §4.5, and the definitions below are modelled from those words. -/

/-- A report file as the merge-side Validator sees it: its name, its content
parsed as structured data (`none` when it is not well-formed), and its size
in bytes. -/
structure RawReportFile where
  filename : String
  json : Option RawData
  size : Nat
/-- Modelled from the spec: the Validator's per-file check (the merge script
is missing from the sources) — valid JSON, `status != "failed"`,
`result_data.debug_info.error_occurred != true`, `result_data.mock_mode !=
true`, and the file is not empty; the first violated rule is the recorded
rejection reason. -/
def validateReport (f : RawReportFile) : Except String Unit :=
  match f.json with
  | none => .error "invalid JSON"
  | some d =>
      if d.status.getD "" = "failed" then .error "status is failed"
      else if ((d.result_data.getD emptyResultData).debug_info.getD
          ⟨none⟩).error_occurred.getD false = true then .error "error flag set"
      else if (d.result_data.getD emptyResultData).mock_mode.getD false = true then
        .error "mock data"
      else if f.size = 0 then .error "empty file"
      else .ok ()

/-- The acceptance condition as the claim words it: well-formed, status not
a failure marker, no error flag, no mock flag, non-zero size. -/
def reportAcceptable (f : RawReportFile) : Bool :=
  match f.json with
  | none => false
  | some d =>
      (d.status.getD "" ≠ "failed") &&
      (((d.result_data.getD emptyResultData).debug_info.getD
          ⟨none⟩).error_occurred.getD false = false) &&
      ((d.result_data.getD emptyResultData).mock_mode.getD false = false) &&
      (f.size ≠ 0)

/-- Whether the Validator accepts the file. -/
def isAccepted (f : RawReportFile) : Bool :=
  match validateReport f with
  | .ok _ => true
  | .error _ => false

/-- The rejection reason of a rejected file (and `""` for an accepted one). -/
def rejectReason (f : RawReportFile) : String :=
  match validateReport f with
  | .ok _ => ""
  | .error reason => reason

/-- The summary a merge run produces: the accepted file names and the
per-run rejection list of (file name, reason). -/
structure RunSummary where
  merged : List String
  rejections : List (String × String)
/-- Modelled from the spec: the per-run validation loop — each file is
validated; an accepted file is merged, a rejected file is recorded with its
name and reason, and the loop always continues with the remaining sibling
files. -/
def processBatch (files : List RawReportFile) : RunSummary :=
  files.foldl
    (fun s f =>
      match validateReport f with
      | .ok _ => { s with merged := s.merged ++ [f.filename] }
      | .error reason => { s with rejections := s.rejections ++ [(f.filename, reason)] })
    ⟨[], []⟩

theorem isAccepted_eq_reportAcceptable (f : RawReportFile) :
    isAccepted f = reportAcceptable f := by
  unfold isAccepted validateReport reportAcceptable
  cases f.json with
  | none => rfl
  | some d =>
      by_cases h1 : d.status.getD "" = "failed" <;>
        by_cases h2 : ((d.result_data.getD emptyResultData).debug_info.getD
          ⟨none⟩).error_occurred.getD false = true <;>
        by_cases h3 : (d.result_data.getD emptyResultData).mock_mode.getD false = true <;>
        by_cases h4 : f.size = 0 <;>
        simp [h1, h2, h3, h4]

theorem processBatch_from (files : List RawReportFile) (s : RunSummary) :
    (files.foldl
      (fun s f =>
        match validateReport f with
        | .ok _ => { s with merged := s.merged ++ [f.filename] }
        | .error reason =>
            { s with rejections := s.rejections ++ [(f.filename, reason)] })
      s).merged = s.merged ++ (files.filter fun f => isAccepted f).map (·.filename) ∧
    (files.foldl
      (fun s f =>
        match validateReport f with
        | .ok _ => { s with merged := s.merged ++ [f.filename] }
        | .error reason =>
            { s with rejections := s.rejections ++ [(f.filename, reason)] })
      s).rejections = s.rejections ++
        ((files.filter fun f => !isAccepted f).map fun f => (f.filename, rejectReason f)) := by
  induction files generalizing s with
  | nil => simp
  | cons f rest ih =>
    cases hv : validateReport f with
    | ok u =>
        have hacc : isAccepted f = true := by simp [isAccepted, hv]
        simp only [List.foldl_cons, hv, List.filter_cons, hacc]
        constructor
        · rw [(ih _).1]
          simp
        · rw [(ih _).2]
          simp
    | error reason =>
        have hacc : isAccepted f = false := by simp [isAccepted, hv]
        have hrr : rejectReason f = reason := by simp [rejectReason, hv]
        simp only [List.foldl_cons, hv, List.filter_cons, hacc,
          Bool.not_false, Bool.not_true, if_true, if_false]
        constructor
        · rw [(ih _).1]
          simp
        · rw [(ih _).2]
          simp [hrr]

/-- C3: the Validator accepts a file exactly when it is well-formed, not
failure-marked, not error-flagged, not mock and non-empty; in a batch run
every file reaches a terminal decision (accepted count + rejected count =
batch size, so no rejection aborts the siblings), every rejected file is in
the per-run rejection list with its name and reason, and every accepted
file is merged. -/
theorem validator_accept_iff_no_abort (files : List RawReportFile) (f : RawReportFile) :
    (isAccepted f = reportAcceptable f) ∧
    ((processBatch files).merged.length + (processBatch files).rejections.length =
      files.length) ∧
    (∀ g ∈ files, isAccepted g = false →
      (g.filename, rejectReason g) ∈ (processBatch files).rejections) ∧
    (∀ g ∈ files, isAccepted g = true → g.filename ∈ (processBatch files).merged) := by
  have hchar := processBatch_from files ⟨[], []⟩
  have hm : (processBatch files).merged =
      (files.filter fun g => isAccepted g).map (·.filename) := by
    simpa [processBatch] using hchar.1
  have hr : (processBatch files).rejections =
      (files.filter fun g => !isAccepted g).map fun g => (g.filename, rejectReason g) := by
    simpa [processBatch] using hchar.2
  refine ⟨isAccepted_eq_reportAcceptable f, ?_, ?_, ?_⟩
  · rw [hm, hr]
    simp only [List.length_map]
    exact (List.length_eq_length_filter_add (fun g => isAccepted g)).symm
  · intro g hg hrej
    rw [hr]
    exact List.mem_map.mpr ⟨g, List.mem_filter.mpr ⟨hg, by simp [hrej]⟩, rfl⟩
  · intro g hg hacc
    rw [hm]
    exact List.mem_map.mpr ⟨g, List.mem_filter.mpr ⟨hg, by simp [hacc]⟩, rfl⟩

/-! ## Reorganizer, archive and manifest (merge side)

The Reorganizer and Manifest Builder live in the merge script, which is not
among the repository's checked-in sources; they are modelled from spec §4.6
and §4.7 and the three-level hierarchy of the merge process specification
document. -/

/-- A valid report about to be reorganized: its parsed identity and its
content. -/
structure ReportFile where
  organization : String
  project : String
  date : Int
  modelName : String
  ext : String
  content : String
/-- The canonical destination `<organization>/<project>/<weekStart>/<filename>`
under the archive root. -/
structure CanonicalPath where
  organization : String
  project : String
  weekStart : Int
  filename : String
deriving DecidableEq

/-- Modelled from the spec: the Reorganizer's destination algorithm —
`archive/<organization>/<project>/<weekStart>/<modelName>.<ext>` with
`weekStart` the Monday-anchored week bucket of the report date. -/
def destPath (f : ReportFile) : CanonicalPath :=
  ⟨f.organization, f.project, getWeekStart f.date, f.modelName ++ "." ++ f.ext⟩

/-- The archive seen as a map from canonical paths to file contents. -/
def Archive : Type := CanonicalPath → Option String

/-- Modelled from the spec: the overwrite-safe copy — write the content at
the destination, overwriting whatever was there (no versioning, no append
suffix), and touch no other path. -/
def archiveWrite (a : Archive) (p : CanonicalPath) (c : String) : Archive :=
  fun q => if q = p then some c else a q

/-- Modelled from the spec: the Reorganizer pass — copy each valid file, in
order, to its canonical destination. -/
def mergeFiles (fs : List ReportFile) (a : Archive) : Archive :=
  fs.foldl (fun acc f => archiveWrite acc (destPath f) f.content) a

theorem mergeFiles_append (p t : List ReportFile) (a : Archive) :
    mergeFiles (p ++ t) a = mergeFiles t (mergeFiles p a) := by
  simp [mergeFiles, List.foldl_append]

theorem mergeFiles_nowrite (fs : List ReportFile) (a : Archive) (q : CanonicalPath)
    (h : ∀ f ∈ fs, destPath f ≠ q) : mergeFiles fs a q = a q := by
  induction fs generalizing a with
  | nil => rfl
  | cons f fs ih =>
    have hq : destPath f ≠ q := h f (List.mem_cons_self f fs)
    calc mergeFiles (f :: fs) a q
        = mergeFiles fs (archiveWrite a (destPath f) f.content) q := rfl
      _ = archiveWrite a (destPath f) f.content q :=
          ih _ fun g hg => h g (List.mem_cons_of_mem f hg)
      _ = a q := by unfold archiveWrite; rw [if_neg (fun he => hq he.symm)]

theorem mergeFiles_write (fs : List ReportFile) (a b : Archive) (q : CanonicalPath)
    (h : ∃ f ∈ fs, destPath f = q) : mergeFiles fs a q = mergeFiles fs b q := by
  induction fs generalizing a b with
  | nil => obtain ⟨f, hf, _⟩ := h; exact absurd hf (List.not_mem_nil f)
  | cons f fs ih =>
    by_cases hfs : ∃ g ∈ fs, destPath g = q
    · exact ih _ _ hfs
    · obtain ⟨f', hf'mem, hf'⟩ := h
      have hf : destPath f = q := by
        rcases List.mem_cons.mp hf'mem with he | hmem
        · exact he ▸ hf'
        · exact absurd ⟨f', hmem, hf'⟩ hfs
      have hno : ∀ g ∈ fs, destPath g ≠ q := fun g hg he => hfs ⟨g, hg, he⟩
      calc mergeFiles (f :: fs) a q
          = archiveWrite a (destPath f) f.content q := mergeFiles_nowrite fs _ q hno
        _ = some f.content := by unfold archiveWrite; rw [if_pos hf.symm]
        _ = archiveWrite b (destPath f) f.content q := by
            unfold archiveWrite; rw [if_pos hf.symm]
        _ = mergeFiles (f :: fs) b q := (mergeFiles_nowrite fs _ q hno).symm

theorem mergeFiles_self_idem (fs : List ReportFile) (a : Archive) :
    mergeFiles fs (mergeFiles fs a) = mergeFiles fs a := by
  funext q
  by_cases h : ∃ f ∈ fs, destPath f = q
  · exact mergeFiles_write fs (mergeFiles fs a) a q h
  · push_neg at h
    exact mergeFiles_nowrite fs _ q h

theorem mergeFiles_take_idem (p t : List ReportFile) (a : Archive) :
    mergeFiles (p ++ t) (mergeFiles p a) = mergeFiles (p ++ t) a := by
  rw [mergeFiles_append, mergeFiles_append, mergeFiles_self_idem]

/-- C2: merging two reports with the same (organization, project, weekStart,
modelName) identity in sequence leaves the archive exactly equal to the
prior archive with the later report's content at the canonical destination:
whatever was at that exact path is overwritten, and no other path anywhere
in the archive changes — no version, copy or append-suffixed variant of the
earlier file is kept. -/
theorem merge_last_write_wins (f g : ReportFile) (a : Archive)
    (horg : f.organization = g.organization) (hproj : f.project = g.project)
    (hweek : getWeekStart f.date = getWeekStart g.date)
    (hmodel : f.modelName = g.modelName) (hext : f.ext = g.ext) :
    mergeFiles [f, g] a = archiveWrite a (destPath g) g.content := by
  have hdest : destPath f = destPath g := by
    unfold destPath
    rw [horg, hproj, hweek, hmodel, hext]
  funext q
  show archiveWrite (archiveWrite a (destPath f) f.content) (destPath g) g.content q =
    archiveWrite a (destPath g) g.content q
  unfold archiveWrite
  by_cases h : q = destPath g
  · rw [if_pos h, if_pos h]
  · rw [if_neg h, if_neg h, if_neg (hdest ▸ h)]

/-- The first report of the C2 witness: dated Wednesday 2025-10-08. -/
def reportV1 : ReportFile :=
  ⟨"Ennead Architects LLP", "1643_LHH", daysFromCivil 2025 10 8, "ModelA",
   "sexyDuck", "first content"⟩

/-- The second report of the C2 witness: same identity (its Thursday
2025-10-09 falls in the same Monday week bucket), different content. -/
def reportV2 : ReportFile :=
  ⟨"Ennead Architects LLP", "1643_LHH", daysFromCivil 2025 10 9, "ModelA",
   "sexyDuck", "second content"⟩

/-- The empty archive. -/
def emptyArchive : Archive := fun _ => none

/-- C2 witness: the two concrete same-identity reports collapse to the later
write over the empty archive. -/
theorem merge_last_write_wins_witness :
    reportV1.organization = reportV2.organization ∧
    reportV1.project = reportV2.project ∧
    getWeekStart reportV1.date = getWeekStart reportV2.date ∧
    reportV1.modelName = reportV2.modelName ∧
    reportV1.ext = reportV2.ext ∧
    mergeFiles [reportV1, reportV2] emptyArchive =
      archiveWrite emptyArchive (destPath reportV2) reportV2.content :=
  ⟨rfl, rfl, by decide, rfl, rfl,
    merge_last_write_wins reportV1 reportV2 emptyArchive rfl rfl (by decide) rfl rfl⟩

/-! ## Full pipeline pass and manifest rebuild -/

/-- One staged report file: the identity/content the Reorganizer would use
if the file is valid, together with the raw form the Validator inspects. -/
structure StagedReport where
  file : ReportFile
  raw : RawReportFile
/-- The staged files the Validator lets through, in staging order. -/
def pipelineValidFiles (s : List StagedReport) : List ReportFile :=
  (s.filter fun r => isAccepted r.raw).map (·.file)

/-- One manifest entry, derived from the archived file it indexes. -/
structure ManifestEntry where
  organization : String
  project : String
  weekStart : Int
  filename : String
  filesize : Nat
/-- The versioned manifest: an explicit version tag and the hierarchical
index, one entry per archived file. -/
structure Manifest where
  version : Nat
  entryAt : CanonicalPath → Option ManifestEntry

/-- The manifest schema version tag (v3, the three-level hierarchy). -/
def manifestVersion : Nat := 3

/-- Modelled from the spec: the Manifest Builder — walk the entire archive
and rebuild the index from scratch, one entry per file, carrying the file's
identity and size. -/
def buildManifest (a : Archive) : Manifest :=
  ⟨manifestVersion, fun p =>
    (a p).map fun c => ⟨p.organization, p.project, p.weekStart, p.filename, c.length⟩⟩

/-- Modelled from the spec: one pipeline pass — classify and validate the
staged files, reorganize the valid ones into the archive, then rebuild the
manifest from the resulting archive state. -/
def runPipeline (s : List StagedReport) (a : Archive) : Archive × Manifest :=
  let merged := mergeFiles (pipelineValidFiles s) a
  (merged, buildManifest merged)

/-- C7: the pipeline is idempotent — running the full pass a second time on
the same staged input leaves the archive and the manifest exactly as one
run does; and a re-run on top of a partially-applied prior state (the first
`n` copies of a crashed run already in the archive) produces the same final
archive and manifest as a single uninterrupted run. -/
theorem pipeline_idempotent (s : List StagedReport) (a : Archive) (n : Nat) :
    runPipeline s (runPipeline s a).1 = runPipeline s a ∧
    runPipeline s (mergeFiles ((pipelineValidFiles s).take n) a) = runPipeline s a := by
  have hpart : mergeFiles (pipelineValidFiles s)
      (mergeFiles ((pipelineValidFiles s).take n) a) =
      mergeFiles (pipelineValidFiles s) a := by
    have h := mergeFiles_take_idem ((pipelineValidFiles s).take n)
      ((pipelineValidFiles s).drop n) a
    rwa [List.take_append_drop] at h
  constructor
  · show (mergeFiles (pipelineValidFiles s) (mergeFiles (pipelineValidFiles s) a),
      buildManifest (mergeFiles (pipelineValidFiles s) (mergeFiles (pipelineValidFiles s) a))) =
      (mergeFiles (pipelineValidFiles s) a, buildManifest (mergeFiles (pipelineValidFiles s) a))
    rw [mergeFiles_self_idem]
  · show (mergeFiles (pipelineValidFiles s) (mergeFiles ((pipelineValidFiles s).take n) a),
      buildManifest (mergeFiles (pipelineValidFiles s)
        (mergeFiles ((pipelineValidFiles s).take n) a))) =
      (mergeFiles (pipelineValidFiles s) a, buildManifest (mergeFiles (pipelineValidFiles s) a))
    rw [hpart]

/-! ## Cleanup of staged packages (merge side) -/

/-- A staged package: the decoded batch payload materialized under a
job-named folder; `jobName` also identifies the originating BatchPayload
and TriggerRecord. -/
structure StagedPackage where
  jobName : String
  files : List RawReportFile
/-- The terminal state a file of a package can reach: merged into the
archive, or rejected with a recorded reason. -/
inductive FileOutcome
  | merged
  | rejected (reason : String)
/-- The terminal decision the pipeline reaches for one file. -/
def fileOutcome (f : RawReportFile) : FileOutcome :=
  match validateReport f with
  | .ok _ => .merged
  | .error reason => .rejected reason

/-- The per-file decisions of an uninterrupted run over a package, in file
order; an interrupted run has reached only a prefix of this list. -/
def packageOutcomes (pkg : StagedPackage) : List FileOutcome :=
  pkg.files.map fileOutcome

/-- Modelled from the spec: the Cleanup rule (§4.8, merge specification
step 7; the merge script is not among the checked-in sources) — a
StagedPackage, with its BatchPayload and TriggerRecord, may be deleted
exactly when every file it contributed has a terminal decision, merged or
rejected alike. `decided` lists the decisions reached so far in file
order. -/
def cleanupMayDelete (pkg : StagedPackage) (decided : List FileOutcome) : Bool :=
  decided.length = pkg.files.length

/-- C4: a staged package is deleted only once every one of its files has
reached a terminal state — after an uninterrupted run it is deletable
(partial success, a mix of merged and rejected files, still counts), after
a run that stopped before the last file it is not, and deletability always
forces one decision per file (never speculative). -/
theorem cleanup_only_after_terminal (pkg : StagedPackage) (n : Nat)
    (decided : List FileOutcome) :
    cleanupMayDelete pkg (packageOutcomes pkg) = true ∧
    (n < pkg.files.length →
      cleanupMayDelete pkg ((packageOutcomes pkg).take n) = false) ∧
    (cleanupMayDelete pkg decided = true → decided.length = pkg.files.length) := by
  refine ⟨?_, ?_, ?_⟩
  · simp [cleanupMayDelete, packageOutcomes]
  · intro hlt
    simp only [cleanupMayDelete, packageOutcomes, List.length_take, List.length_map,
      decide_eq_false_iff_not]
    omega
  · intro h
    simpa [cleanupMayDelete] using h

/-- C4 witness: a two-file package, one file accepted and one rejected
(partial success), is deletable after the full run but not after a run that
decided only the first file. -/
def mixedPackage : StagedPackage :=
  ⟨"revit_slave_20251009_192549",
   [⟨"good.sexyDuck",
     some ⟨none, none, some "completed", none, none, none, none, none, none,
       none, none⟩, 10⟩,
    ⟨"bad.sexyDuck", none, 10⟩]⟩

theorem cleanup_only_after_terminal_witness :
    cleanupMayDelete mixedPackage (packageOutcomes mixedPackage) = true ∧
    (1 < mixedPackage.files.length →
      cleanupMayDelete mixedPackage ((packageOutcomes mixedPackage).take 1) = false) ∧
    (cleanupMayDelete mixedPackage (packageOutcomes mixedPackage) = true →
      (packageOutcomes mixedPackage).length = mixedPackage.files.length) :=
  cleanup_only_after_terminal mixedPackage 1 (packageOutcomes mixedPackage)

/-! ## Durable store write path (push-with-retry)

The workflow YAML that implements the push loop is not among the
repository's checked-in sources; the loop is modelled from spec §4.2 and
the workflow architecture notes (MAX_RETRIES = 3; on a rejected push, pull
the latest state and rebase, then retry; failure after all retries is
surfaced). -/

/-- The shared store: a version counter and the committed entries. -/
structure StoreState where
  version : Nat
  entries : List String
/-- Committing the local write on top of a base state. -/
def commitWrite (s : StoreState) (w : String) : StoreState :=
  ⟨s.version + 1, s.entries ++ [w]⟩

/-- The error a fully exhausted push surfaces. -/
def pushExhausted : String := "push failed after 3 attempts"

/-- Modelled from the spec: the retry loop with `k` attempts left, about to
make fetch number `i`.  `remote i` is the remote state at fetch `i`; the
push of attempt `i` is rejected as stale exactly when a concurrent writer
advanced the remote between fetch `i` and the push (`remote (i+1)` moved),
in which case the loop refetches and reapplies the write. -/
def pushAttempts (remote : Nat → StoreState) (w : String) :
    Nat → Nat → Except String StoreState
  | 0, _ => .error pushExhausted
  | k + 1, i =>
      let base := remote i
      if (remote (i + 1)).version = base.version then .ok (commitWrite base w)
      else pushAttempts remote w k (i + 1)

/-- The fixed retry bound of spec §4.2. -/
def maxPushRetries : Nat := 3

/-- Modelled from the spec: the full push-with-retry write path. -/
def pushWithRetry (remote : Nat → StoreState) (w : String) : Except String StoreState :=
  pushAttempts remote w maxPushRetries 0

theorem pushAttempts_ok_mem (remote : Nat → StoreState) (w : String) :
    ∀ k i s, pushAttempts remote w k i = .ok s → w ∈ s.entries := by
  intro k
  induction k with
  | zero => intro i s h; exact absurd h (by simp [pushAttempts])
  | succ k ih =>
    intro i s h
    unfold pushAttempts at h
    by_cases hc : (remote (i + 1)).version = (remote i).version
    · rw [if_pos hc] at h
      obtain rfl : commitWrite (remote i) w = s := by
        simpa using h
      simp [commitWrite]
    · rw [if_neg hc] at h
      exact ih (i + 1) s h

theorem pushAttempts_exhaust (remote : Nat → StoreState) (w : String) :
    ∀ k i, (∀ j, j < k → (remote (i + j + 1)).version ≠ (remote (i + j)).version) →
      pushAttempts remote w k i = .error pushExhausted := by
  intro k
  induction k with
  | zero => intro i _; rfl
  | succ k ih =>
    intro i h
    unfold pushAttempts
    rw [if_neg (by simpa using h 0 (Nat.succ_pos k))]
    exact ih (i + 1) fun j hj => by
      have h2 := h (j + 1) (Nat.succ_lt_succ hj)
      have e1 : i + 1 + j + 1 = i + (j + 1) + 1 := by omega
      have e2 : i + 1 + j = i + (j + 1) := by omega
      rw [e1, e2]
      exact h2

/-- C5: the push-with-retry write path — a reported success really carries
the write into the store state it returns; when a concurrent writer defeats
every one of the 3 attempts, the path returns the hard exhaustion error;
and every run either surfaces an error or succeeds with the write applied —
an exhausted write is never silently dropped and never reported as
success. -/
theorem pushWithRetry_spec (remote : Nat → StoreState) (w : String) :
    (∀ s, pushWithRetry remote w = .ok s → w ∈ s.entries) ∧
    ((∀ i, i < maxPushRetries →
        (remote (i + 1)).version ≠ (remote i).version) →
      pushWithRetry remote w = .error pushExhausted) ∧
    ((∃ e, pushWithRetry remote w = .error e) ∨
      ∃ s, pushWithRetry remote w = .ok s ∧ w ∈ s.entries) := by
  refine ⟨fun s h => pushAttempts_ok_mem remote w maxPushRetries 0 s h, ?_, ?_⟩
  · intro h
    exact pushAttempts_exhaust remote w maxPushRetries 0 fun j hj => by
      simpa using h j hj
  · cases h : pushWithRetry remote w with
    | error e => exact Or.inl ⟨e, rfl⟩
    | ok s => exact Or.inr ⟨s, rfl, pushAttempts_ok_mem remote w maxPushRetries 0 s h⟩

/-! ## Legacy filename parsing (merge side)

The filename parser lives in the merge script, which is not among the
repository's checked-in sources; it is modelled from spec §4.6 and the
"Filename Parsing" section of the merge process specification document.
Filenames are handled as character lists; `String.mk` packs a token back
into a string. -/

/-- Split a character list at every occurrence of `sep` (the behaviour of a
split on an explicit single-character separator: n separators yield n+1
pieces, empty pieces kept). -/
def splitOnSep (sep : Char) : List Char → List (List Char)
  | [] => [[]]
  | c :: rest =>
      let groups := splitOnSep sep rest
      if c = sep then [] :: groups
      else
        match groups with
        | [] => [[c]]
        | g :: gs => (c :: g) :: gs

/-- Join tokens with the separator (the inverse of `splitOnSep`). -/
def joinWithSep (sep : Char) : List (List Char) → List Char
  | [] => []
  | [g] => g
  | g :: gs => g ++ sep :: joinWithSep sep gs

/-- Drop the extension at the last dot (a name with no dot keeps all of
itself as the stem). -/
def dropExtension (s : List Char) : List Char :=
  let parts := splitOnSep '.' s
  if parts.length ≤ 1 then s else joinWithSep '.' parts.dropLast

/-- The fields a legacy flat filename encodes. -/
structure ParsedFilename where
  date : String
  organization : String
  project : String
  modelName : String
/-- Modelled from the spec: parsing the underscore tokens of a legacy stem
`YYYY-MM-DD_<Organization>_<ProjectIdentifier>_<ModelName>` — the first
token is the date, the second the organization, the LAST the model name,
and everything in between, underscores included, is the project identifier
(greedy middle match, not a fixed token count). -/
def parseLegacyTokens (tokens : List (List Char)) : Option ParsedFilename :=
  match tokens with
  | date :: org :: rest =>
      match rest.getLast? with
      | some modelTok =>
          let projTokens := rest.dropLast
          if projTokens = [] then none
          else some ⟨String.mk date, String.mk org,
            String.mk (joinWithSep '_' projTokens), String.mk modelTok⟩
      | none => none
  | _ => none

/-- Modelled from the spec: the legacy filename parser — drop the extension,
split the stem on underscores, read date / organization / greedy project
identifier / model name. -/
def parseLegacyFilename (name : String) : Option ParsedFilename :=
  parseLegacyTokens (splitOnSep '_' (dropExtension name.data))

/-- C6: the legacy parser takes everything between the date-and-organization
head and the final model-name token as the project identifier, however many
underscore-separated tokens it spans (greedy middle match); in particular
`2025-10-06_Ennead Architects LLP_2330_Studio 54_Theater.sexyDuck` parses
to organization "Ennead Architects LLP", project "2330_Studio 54", model
"Theater". -/
theorem legacy_filename_greedy_middle
    (date org p model : List Char) (ps : List (List Char)) :
    parseLegacyTokens (date :: org :: ((p :: ps) ++ [model])) =
      some ⟨String.mk date, String.mk org,
        String.mk (joinWithSep '_' (p :: ps)), String.mk model⟩ ∧
    parseLegacyFilename
        "2025-10-06_Ennead Architects LLP_2330_Studio 54_Theater.sexyDuck" =
      some ⟨"2025-10-06", "Ennead Architects LLP", "2330_Studio 54", "Theater"⟩ := by
  constructor
  · have h1 : (p :: (ps ++ [model])).getLast? = some model := by
      rw [← List.cons_append]
      exact List.getLast?_concat _
    have h2 : (p :: (ps ++ [model])).dropLast = p :: ps := by
      rw [← List.cons_append]
      exact List.dropLast_concat
    simp [parseLegacyTokens, h1, h2]
  · rfl

/-! ## Retention sweep over raw payloads (receiver side)

`receiver/receiver.py` is not among the repository's checked-in sources;
the sweep is modelled from spec §4.3 and the sender/receiver workflow
notes ("raw packages older than 10 days are deleted from
`_temp_storage/`"). -/

/-- A raw BatchPayload sitting in the durable store: its name, its age in
days at sweep time, and whether its trigger was ever processed. -/
structure RawPayload where
  name : String
  ageDays : Nat
  processed : Bool
/-- The fixed retention threshold. -/
def retentionDays : Nat := 10

/-- Modelled from the spec: the retention sweep — delete every raw payload
older than the 10-day threshold whether or not it was ever processed, keep
the rest, and log the name of every payload it deletes.  Returns (kept
payloads, deletion log). -/
def retentionSweep (store : List RawPayload) : List RawPayload × List String :=
  ((store.filter fun q => q.ageDays ≤ retentionDays),
   (store.filter fun q => retentionDays < q.ageDays).map RawPayload.name)

theorem sweep_names_map_processed (rest : List RawPayload) (b : Bool)
    (pred : Nat → Bool) :
    ((rest.map fun q => { q with processed := b }).filter fun q =>
        pred q.ageDays).map RawPayload.name =
      (rest.filter fun q => pred q.ageDays).map RawPayload.name := by
  induction rest with
  | nil => rfl
  | cons q rest ih =>
      by_cases hq : pred q.ageDays = true <;> simp [List.filter_cons, hq, ih]

/-- C8: the sweep deletes every payload whose age exceeds the 10-day
threshold — even one whose trigger was never processed — and logs its name;
it retains every younger payload; and it is independent of processing
success: rewriting every `processed` flag changes neither the kept names
nor the deletion log. -/
theorem retentionSweep_spec (store : List RawPayload) (p : RawPayload) (b : Bool) :
    (p ∈ store → retentionDays < p.ageDays →
      p ∉ (retentionSweep store).1 ∧ p.name ∈ (retentionSweep store).2) ∧
    (p ∈ store → p.ageDays ≤ retentionDays → p ∈ (retentionSweep store).1) ∧
    ((retentionSweep (store.map fun q => { q with processed := b })).1.map
        RawPayload.name = (retentionSweep store).1.map RawPayload.name) ∧
    ((retentionSweep (store.map fun q => { q with processed := b })).2 =
      (retentionSweep store).2) := by
  refine ⟨fun hmem hold => ⟨?_, ?_⟩, fun hmem hyoung => ?_, ?_, ?_⟩
  · intro hkept
    have := (List.mem_filter.mp hkept).2
    simp at this
    omega
  · exact List.mem_map.mpr ⟨p, List.mem_filter.mpr ⟨hmem, by simpa using hold⟩, rfl⟩
  · exact List.mem_filter.mpr ⟨hmem, by simpa using hyoung⟩
  · show ((store.map fun q => { q with processed := b }).filter fun q =>
        q.ageDays ≤ retentionDays).map RawPayload.name =
      (store.filter fun q => q.ageDays ≤ retentionDays).map RawPayload.name
    exact sweep_names_map_processed store b fun a => a ≤ retentionDays
  · show ((store.map fun q => { q with processed := b }).filter fun q =>
        retentionDays < q.ageDays).map RawPayload.name =
      (store.filter fun q => retentionDays < q.ageDays).map RawPayload.name
    exact sweep_names_map_processed store b fun a => retentionDays < a

end HealthMetric
